import Mathlib

/-!
# The scheduler process supervisor (`main.go`)

A shallow embedding of `run` and of the handler that `startHealthCheck`
registers, from `main.go`.

* Calls into collaborators (`events.ConnectToEventStream`,
  `resourcewatchers.WatchMetadata`, `http.ListenAndServe`,
  `scheduler.UpdateWithMetadata`, `md.GetVersion`, `http.Get`,
  `client.NewRancherClient`) are inputs: each body is a function of the
  results those calls deliver.
* Every body produces a trace of the observable actions it performs, in
  program order, together with the way it ends.
* The four goroutines of `run` are modelled one by one; how the Go runtime
  interleaves them is not part of the model.
-/

namespace Scheduler

/-! ## Go values -/

/-- Go `error` value that is not nil; only the text of `Error()` is observed. -/
structure GoError where
  msg : String
deriving DecidableEq, Repr

/-- Go `error` interface value: `none` is `nil`. -/
abbrev Err := Option GoError

/-- Width of the Go type `int` on the 64-bit platforms the binary is built for. -/
def intSize : Nat := 64

/-- Largest value of the Go type `int`. -/
def maxInt : Int := 2 ^ (intSize - 1) - 1

/-- Smallest value of the Go type `int`. -/
def minInt : Int := -(2 ^ (intSize - 1))

/-- Two's-complement wrap-around of an integer result into the Go type `int`. -/
def wrapInt (x : Int) : Int :=
  (x + 2 ^ (intSize - 1)) % 2 ^ intSize - 2 ^ (intSize - 1)

/-- The value `var VERSION` of `main.go`. -/
def VERSION : String := "v0.1.0-dev"

/-- The value `var MaxRetries` of `main.go`. -/
def MaxRetries : Int := 2

/-- The value a panic carries, as the deferred `recover()` sees it: a value
implementing `error` (every runtime fault is one) or any other value. -/
inductive PanicValue
  | error (e : GoError)
  | other (descr : String)
deriving DecidableEq, Repr

/-- The runtime fault raised by a method call on a nil interface value. -/
def nilDereference : GoError :=
  ⟨"runtime error: invalid memory address or nil pointer dereference"⟩

/-- How one invocation of a wrapped operation comes back to the loop:
it returns an `error` (possibly nil) or it panics. -/
inductive OpResult
  | returned (err : Err)
  | panicked (v : PanicValue)
deriving DecidableEq, Repr

/-- The three supervised operations of `run`. -/
inductive Supervised
  | eventStream
  | metadataWatch
  | healthCheck
deriving DecidableEq, Repr

/-- What one call `scheduler.UpdateWithMetadata(true)` does: it returns
`(ok, err)` or it panics. -/
inductive SyncOutcome
  | returned (ok : Bool) (err : Err)
  | panicked (v : PanicValue)
deriving DecidableEq, Repr

/-- Log levels of `github.com/rancher/log` used by `main.go`. -/
inductive Level
  | debug
  | info
  | warn
  | error
  | fatal
deriving DecidableEq, Repr

/-- An argument handed to a logging call. -/
inductive Arg
  | int (i : Int)
  | str (s : String)
deriving DecidableEq, Repr

/-- The four goroutines `run` launches. -/
inductive Goroutine
  | supervise (t : Supervised)
  | reconcile
deriving DecidableEq, Repr

/-- Go `time.Duration`, in nanoseconds. -/
abbrev Duration := Nat

/-- The constant `time.Second`. -/
def Second : Duration := 1000000000

/-- The constant `time.Minute`. -/
def Minute : Duration := 60 * Second

/-- Observable actions of the process, in the order the code performs them. -/
inductive Ev
  | setLevel (lvl : String)
  | newScheduler (time : Int)
  | newMetadataClient (url : String)
  | setMetadataClient
  | newRancherClient (timeout : Duration) (url ak sk : String)
  | go (g : Goroutine)
  | invoke (t : Supervised) (r : OpResult)
  | updateWithMetadata (force : Bool) (r : SyncOutcome)
  | sleep (d : Duration)
  | log (lvl : Level) (text : String) (args : List Arg)
  | send (e : GoError)
  | osExit (code : Nat)
deriving DecidableEq, Repr

/-! ## The retry loops (`main.go` lines 89-99, 112-122, 135-145) -/

/-- Text of the `log.Debug` call on the `break` branch. -/
def exceededText : Supervised → String
  | .eventStream => "connectToEventStream exceeded max-retry limit with error %s"
  | .metadataWatch => "watchMetadata exceeded max-retry limit with error %s"
  | .healthCheck => "startHealthCheck exceeded max-retry limit with error %s"

/-- Text of the `log.Debugf` call on the `else` branch. -/
def retryText : Supervised → String
  | .eventStream => "make ConnectToEventStream retry %d"
  | .metadataWatch => "make watchMetadata retry %d"
  | .healthCheck => "make startHealthCheck retry %d"

/-- The text before `%s` in the `fmt.Errorf` call after the loop. -/
def exitText : Supervised → String
  | .eventStream => "cattle event subscriber exited: "
  | .metadataWatch => "metadata watcher exited: "
  | .healthCheck => "healthcheck provider died: "

/-- The text `err.Error()` of an error that is known not to be nil. -/
def errorText (err : Err) : String :=
  match err with
  | some e => e.msg
  | none => ""

/-- How the `for` loop of a supervisor goroutine is left. -/
inductive LoopEnd
  | broke
  | panicked (v : PanicValue)
  | running
deriving DecidableEq, Repr

/-- The loop
```
for {
    err := op()
    if err != nil && attempt > MaxRetries { log.Debug(..); break }
    else { attempt++; log.Debugf(.., attempt) }
}
```
started with the given value of `attempt`, run against the results of the
successive invocations of `op`. When the list of results is used up the
operation is still running (`LoopEnd.running`). `attempt++` is Go `int`
arithmetic. -/
def retryLoop (t : Supervised) (maxRetries : Int) : Int → List OpResult → List Ev × LoopEnd
  | _, [] => ([], .running)
  | _, .panicked v :: _ => ([.invoke t (.panicked v)], .panicked v)
  | attempt, .returned err :: rs =>
    if err ≠ none ∧ attempt > maxRetries then
      ([.invoke t (.returned err), .log .debug (exceededText t) [.str (errorText err)]], .broke)
    else
      let attempt := wrapInt (attempt + 1)
      let rest := retryLoop t maxRetries attempt rs
      (.invoke t (.returned err) :: .log .debug (retryText t) [.int attempt] :: rest.1, rest.2)

/-- Whether an action is an invocation of a wrapped operation. -/
def Ev.isInvoke : Ev → Bool
  | .invoke _ _ => true
  | _ => false

/-- Number of invocations of wrapped operations in a trace. -/
def invocations (tr : List Ev) : Nat :=
  (tr.filter Ev.isInvoke).length

/-- How a supervisor goroutine ends. -/
inductive GoEnd
  | sent (e : GoError)
  | fatal (e : GoError)
  | silent
  | running
deriving DecidableEq, Repr

/-- The deferred function of each goroutine:
```
if r := recover(); r != nil {
    switch e := r.(type) {
    case error:
        log.Fatal(e)
    }
}
```
run for a panic with value `v`. `log.Fatal` logs and calls `os.Exit(1)`.
A value that is not an `error` matches no case: the function returns and
the goroutine is over. -/
def recovered : PanicValue → List Ev × GoEnd
  | .error e => ([.log .fatal e.msg [], .osExit 1], .fatal e)
  | .other _ => ([], .silent)

/-- The body of a supervisor goroutine (`main.go` lines 80-101, 103-124,
126-147). `err` is the variable `err` of `run` that the closure captures:
the `err` assigned inside the loop is declared there with `:=` and is out of
scope at the `exit <- fmt.Errorf(.., err.Error())` statement. -/
def supervisor (t : Supervised) (maxRetries : Int) (err : Err) (rs : List OpResult) :
    List Ev × GoEnd :=
  let loop := retryLoop t maxRetries 1 rs
  match loop.2 with
  | .running => (loop.1, .running)
  | .panicked v => (loop.1 ++ (recovered v).1, (recovered v).2)
  | .broke =>
    match err with
    | none => (loop.1 ++ (recovered (.error nilDereference)).1, (recovered (.error nilDereference)).2)
    | some e => (loop.1 ++ [.send ⟨exitText t ++ e.msg⟩], .sent ⟨exitText t ++ e.msg⟩)

/-! ## Start-up (`main.go` lines 47-79) -/

/-- The two failures of `strconv.Atoi`: `strconv.ErrSyntax` and `strconv.ErrRange`. -/
inductive NumError
  | ErrSyntax
  | ErrRange
deriving DecidableEq, Repr

/-- The digit loop of `strconv.ParseUint(s, 10, 64)` of the Go standard
library: a byte that is not a decimal digit is a syntax error with value 0;
a value above `2^64 - 1` is a range error with value `2^64 - 1`, reported as
soon as it is reached. -/
def parseUintLoop : Nat → List Char → Nat × Option NumError
  | n, [] => (n, none)
  | n, c :: cs =>
    if '0' ≤ c ∧ c ≤ '9' then
      let d := c.toNat - '0'.toNat
      if n * 10 + d > 2 ^ 64 - 1 then (2 ^ 64 - 1, some .ErrRange)
      else parseUintLoop (n * 10 + d) cs
    else (0, some .ErrSyntax)

/-- The function `strconv.ParseUint(s, 10, 64)`: the empty string is a syntax error. -/
def ParseUint (s : List Char) : Nat × Option NumError :=
  match s with
  | [] => (0, some .ErrSyntax)
  | _ => parseUintLoop 0 s

/-- The Go standard library function `strconv.Atoi` on a 64-bit platform
(`ParseInt(s, 10, 0)` narrowed to `int`): an optional sign, then decimal
digits. A syntax error returns 0; a value outside `int` returns the nearest
bound together with `ErrRange`. -/
def Atoi (s : String) : Int × Option NumError :=
  match s.data with
  | [] => (0, some .ErrSyntax)
  | c :: cs =>
    let neg := c = '-'
    let digits := if c = '+' ∨ c = '-' then cs else c :: cs
    match ParseUint digits with
    | (_, some .ErrSyntax) => (0, some .ErrSyntax)
    | (un, _) =>
      if ¬ neg ∧ un ≥ 2 ^ 63 then (2 ^ 63 - 1, some .ErrRange)
      else if neg ∧ un > 2 ^ 63 then (-(2 ^ 63), some .ErrRange)
      else if neg then (-(un : Int), none)
      else ((un : Int), none)

/-- The process environment: `none` for a variable that is not set. -/
abbrev Environ := String → Option String

/-- The function `os.Getenv`: the value of the variable, empty when it is not set. -/
def Getenv (env : Environ) (key : String) : String :=
  (env key).getD ""

/-- The value of the variable `time` of `run` after lines 52-58:
```
sleep := os.Getenv("CATTLE_SCHEDULER_SLEEPTIME")
time := 1
if sleep != "" {
    if val, err := strconv.Atoi(sleep); err != nil {
        time = val
    }
}
```
-/
def sleepTime (sleep : String) : Int :=
  if sleep ≠ "" then
    if (Atoi sleep).2 ≠ none then (Atoi sleep).1 else 1
  else 1

/-- The flags of `*cli.Context` that `run` reads. -/
structure Context where
  metadataAddress : String
  healthCheckPort : Int
deriving DecidableEq, Repr

/-- The variables of `run` that the goroutine closures capture. -/
structure Captured where
  time : Int
  url : String
  ak : String
  sk : String
  port : Int
  err : Err
deriving DecidableEq, Repr

/-- How the start-up part of `run` ends: `log.Fatalf` ends the process,
`return err` hands the client construction error to the caller, or the four
goroutines are launched and `run` waits on `<-exit`. -/
inductive RunEnd
  | fatal
  | returned (e : GoError)
  | waiting (vars : Captured)
deriving DecidableEq, Repr

/-- Text of the `log.Fatalf` call of the credential check. -/
def credentialsText : String :=
  "Cattle connection environment variables not available. URL: %v, access key %v, secret key redacted."

/-- The function `run` up to `err = <-exit` (lines 47-178). `clientErr` is
the `err` that `client.NewRancherClient` returns. -/
def run (env : Environ) (c : Context) (clientErr : Err) : List Ev × RunEnd :=
  let debug : List Ev := if Getenv env "RANCHER_DEBUG" = "true" then [.setLevel "debug"] else []
  let time := sleepTime (Getenv env "CATTLE_SCHEDULER_SLEEPTIME")
  let setup : List Ev := debug ++
    [.newScheduler time,
     .newMetadataClient ("http://" ++ c.metadataAddress ++ "/2016-07-29"),
     .setMetadataClient]
  let url := Getenv env "CATTLE_URL"
  let ak := Getenv env "CATTLE_ACCESS_KEY"
  let sk := Getenv env "CATTLE_SECRET_KEY"
  if url = "" ∨ ak = "" ∨ sk = "" then
    (setup ++ [.log .fatal credentialsText [.str url, .str ak], .osExit 1], .fatal)
  else
    let client : List Ev := setup ++ [.newRancherClient (Second * 30) url ak sk]
    match clientErr with
    | some e => (client, .returned e)
    | none =>
      (client ++
        [.go (.supervise .eventStream), .go (.supervise .metadataWatch),
         .go (.supervise .healthCheck), .go .reconcile],
       .waiting ⟨time, url, ak, sk, c.healthCheckPort, none⟩)

/-- The end of `run` (lines 179-181): the value received from `exit` is
logged and returned. -/
def exitAggregator (received : GoError) : List Ev × RunEnd :=
  ([.log .error "Exiting scheduler with error: %v" [.str received.msg]], .returned received)

/-- The supervisor goroutine for `t` as `run` launches it: budget
`MaxRetries`, and the captured `err` of `run`. -/
def launched (vars : Captured) (t : Supervised) (rs : List OpResult) : List Ev × GoEnd :=
  supervisor t MaxRetries vars.err rs

/-! ## The reconciliation goroutine (`main.go` lines 149-177) -/

/-- Head of the outer loop: `t.Sleep(t.Minute * 3)` and the `log.Info` call. -/
def periodHead : List Ev :=
  [.sleep (Minute * 3),
   .log .info "Syncing scheduler information with rancher metadata" []]

/-- Text of the `log.Infof` call of the busy branch. -/
def delayText : String :=
  "Delaying metadata sync by 5 seconds since scheduler is actively handling events."

/-- The goroutine from the head of the inner loop on, run against the
outcomes of the successive `UpdateWithMetadata(true)` calls:
```
ok, err := scheduler.UpdateWithMetadata(true)
if err != nil { log.Warnf(..); break }
if !ok { log.Infof(..); t.Sleep(t.Second * 5); continue }
break
```
A `break` leaves the inner loop, so the outer loop runs its head again and
enters the inner loop anew. A panic runs the deferred function. When the
outcomes are used up the goroutine is still running. -/
def syncLoop : List SyncOutcome → List Ev × GoEnd
  | [] => ([], .running)
  | .panicked v :: _ =>
    (.updateWithMetadata true (.panicked v) :: (recovered v).1, (recovered v).2)
  | .returned ok err :: rs =>
    let rest := syncLoop rs
    if err ≠ none then
      (.updateWithMetadata true (.returned ok err) ::
        .log .warn "Error syncing with metadata: %v" [.str (errorText err)] ::
        (periodHead ++ rest.1), rest.2)
    else if ¬ ok then
      (.updateWithMetadata true (.returned ok err) :: .log .info delayText [] ::
        .sleep (Second * 5) :: rest.1, rest.2)
    else
      (.updateWithMetadata true (.returned ok err) :: (periodHead ++ rest.1), rest.2)

/-- The reconciliation goroutine from its start. The closure captures
`scheduler`, built from `vars.time`, and no other variable of `run`. -/
def reconcile (_vars : Captured) (rs : List SyncOutcome) : List Ev × GoEnd :=
  (periodHead ++ (syncLoop rs).1, (syncLoop rs).2)

/-! ## The health check handler (`main.go` lines 185-208) -/

/-- What the handler writes to the `http.ResponseWriter`. -/
structure Response where
  status : Nat
  body : String
deriving DecidableEq, Repr

/-- The constant `http.StatusNotFound`. -/
def StatusNotFound : Nat := 404

/-- The constant `http.StatusOK`, the status of a response whose header was
not written before the first byte of the body. -/
def StatusOK : Nat := 200

/-- The function `http.Error(w, text, code)`: the status and the text followed by a newline. -/
def httpError (text : String) (code : Nat) : Response :=
  ⟨code, text ++ "\n"⟩

/-- The bytes of a Go string. -/
def goBytes (s : String) : List UInt8 :=
  s.toUTF8.data.toList

/-- The expression `cattleURL[:len(cattleURL)-2] + "ping"`; `none` is the
runtime fault of a slice bound below zero. -/
def pingURL (cattleURL : String) : Option (List UInt8) :=
  let b := goBytes cattleURL
  if b.length < 2 then none
  else some (b.take (b.length - 2) ++ goBytes "ping")

/-- The handler registered for `/healthcheck`. `mdErr` is the `err` of
`md.GetVersion()`, `cattleURL` the value of `os.Getenv("CATTLE_URL")` and
`httpGet` the `err` that `http.Get` returns for a URL. The result is the
response written, or `none` when the handler panics before writing one. -/
def healthcheckHandler (mdErr : Err) (cattleURL : String) (httpGet : List UInt8 → Err) :
    List Ev × Option Response :=
  let healthy : Bool := mdErr = none
  let errMsg : String :=
    if mdErr ≠ none then "error fetching metadata version: " ++ errorText mdErr else ""
  match pingURL cattleURL with
  | none => ([], none)
  | some target =>
    match httpGet target with
    | some e =>
      let errMsg := errMsg ++ " unable to reach rancher/server: " ++ e.msg
      ([.log .error "failed healtcheck: %v" [.str errMsg]],
        some (httpError "Rancher server is unreachable" StatusNotFound))
    | none =>
      if healthy then ([], some ⟨StatusOK, "ok"⟩)
      else
        ([.log .error "failed healtcheck: %v" [.str errMsg]],
          some (httpError "Metadata and dns is unreachable" StatusNotFound))

/-! ## Measures on traces and the inputs of the examples -/

/-- Whether the result at index `i` (from 0) is an error and the counter,
entered at `a`, has passed the budget by then. -/
def stopsAt (N a : Int) (rs : List Err) (i : Nat) : Prop :=
  (∃ e, rs[i]? = some (some e)) ∧ a + i > N

/-- Number of `UpdateWithMetadata` calls in a trace. -/
def syncCalls : List Ev → Nat
  | [] => 0
  | .updateWithMetadata _ _ :: tr => syncCalls tr + 1
  | _ :: tr => syncCalls tr

/-- Total time a trace spends in `t.Sleep`. -/
def slept : List Ev → Duration
  | [] => 0
  | .sleep d :: tr => d + slept tr
  | _ :: tr => slept tr

/-- The environment of the examples: the three credentials are set. -/
def exampleEnv : Environ := fun key =>
  if key = "CATTLE_URL" then some "http://cattle/v1"
  else if key = "CATTLE_ACCESS_KEY" then some "key"
  else if key = "CATTLE_SECRET_KEY" then some "secret"
  else none

/-! ## Facts about the retry loops -/

theorem wrapInt_of_inRange (x : Int) (hlo : minInt ≤ x) (hhi : x ≤ maxInt) : wrapInt x = x := by
  unfold wrapInt
  unfold minInt maxInt at *
  simp only [intSize] at *
  norm_num at *
  omega

theorem minInt_le_one : minInt ≤ 1 := by
  unfold minInt intSize
  norm_num

theorem invocations_cons_invoke (t : Supervised) (r : OpResult) (tr : List Ev) :
    invocations (.invoke t r :: tr) = invocations tr + 1 := by
  simp [invocations, Ev.isInvoke]

theorem invocations_cons_log (lvl : Level) (text : String) (args : List Arg) (tr : List Ev) :
    invocations (.log lvl text args :: tr) = invocations tr := by
  simp [invocations, Ev.isInvoke]

theorem invocations_append (a b : List Ev) :
    invocations (a ++ b) = invocations a + invocations b := by
  simp [invocations]

/-- One pass of the loop body on the `break` branch. -/
theorem retryLoop_break (t : Supervised) (N a : Int) (e : GoError) (rs : List OpResult)
    (h : a > N) :
    retryLoop t N a (.returned (some e) :: rs) =
      ([.invoke t (.returned (some e)), .log .debug (exceededText t) [.str e.msg]], .broke) := by
  simp [retryLoop, h, errorText]

/-- One pass of the loop body on the `else` branch. -/
theorem retryLoop_continue (t : Supervised) (N a : Int) (err : Err) (rs : List OpResult)
    (h : ¬ (err ≠ none ∧ a > N)) :
    retryLoop t N a (.returned err :: rs) =
      (.invoke t (.returned err) :: .log .debug (retryText t) [.int (wrapInt (a + 1))] ::
        (retryLoop t N (wrapInt (a + 1)) rs).1, (retryLoop t N (wrapInt (a + 1)) rs).2) := by
  rw [retryLoop]
  rw [if_neg h]

/-- A loop that was left by `break` has invoked the operation at least once. -/
theorem retryLoop_broke_pos (t : Supervised) (N : Int) :
    ∀ (rs : List OpResult) (a : Int), (retryLoop t N a rs).2 = .broke →
      1 ≤ invocations (retryLoop t N a rs).1 := by
  intro rs
  induction rs with
  | nil => intro a h; simp [retryLoop] at h
  | cons r rs ih =>
    intro a h
    cases r with
    | panicked v => simp [retryLoop] at h
    | returned err =>
      by_cases hc : err ≠ none ∧ a > N
      · obtain ⟨e, rfl⟩ := Option.ne_none_iff_exists'.mp hc.1
        rw [retryLoop_break t N a e rs hc.2]
        simp [invocations, Ev.isInvoke]
      · rw [retryLoop_continue t N a err rs hc]
        simp [invocations_cons_invoke]

/-- An operation that fails on every invocation, entered with `attempt = a`
where `a + n = N + 1`: the loop is left by `break` after `n + 1` invocations. -/
theorem retryLoop_always_failing (t : Supervised) (N : Int) (hN : N < maxInt) :
    ∀ (n : Nat) (a : Int) (es : List GoError), 1 ≤ a → a + n = N + 1 → n + 1 ≤ es.length →
      (retryLoop t N a (es.map fun e => .returned (some e))).2 = .broke ∧
      invocations (retryLoop t N a (es.map fun e => .returned (some e))).1 = n + 1 := by
  intro n
  induction n with
  | zero =>
    intro a es _ ha hlen
    cases es with
    | nil => simp at hlen
    | cons e es =>
      have hgt : a > N := by omega
      simp only [List.map_cons]
      rw [retryLoop_break t N a e _ hgt]
      simp [invocations, Ev.isInvoke]
  | succ n ih =>
    intro a es ha1 ha hlen
    cases es with
    | nil => simp at hlen
    | cons e es =>
      have hle : ¬ ((some e : Err) ≠ none ∧ a > N) := by
        intro h
        have := h.2
        omega
      have hw : wrapInt (a + 1) = a + 1 :=
        wrapInt_of_inRange (a + 1) (by have := minInt_le_one; omega) (by omega)
      simp only [List.map_cons]
      rw [retryLoop_continue t N a (some e) _ hle, hw]
      have hlen2 : n + 1 ≤ es.length := by simpa using hlen
      obtain ⟨h1, h2⟩ := ih (a + 1) es (by omega) (by push_cast at ha ⊢; omega) hlen2
      refine ⟨h1, ?_⟩
      simp only [invocations_cons_invoke, invocations_cons_log]
      omega

/-- The loop entered with `attempt = a` on results that are all returns is
left by `break` after `i + 1` invocations exactly when index `i` is the
first one where the result is an error and the counter exceeds the budget. -/
theorem retryLoop_broke_iff (t : Supervised) (N : Int) :
    ∀ (rs : List Err) (a : Int), minInt ≤ a → a + rs.length ≤ maxInt → ∀ i : Nat,
      ((retryLoop t N a (rs.map .returned)).2 = .broke ∧
        invocations (retryLoop t N a (rs.map .returned)).1 = i + 1) ↔
      (stopsAt N a rs i ∧ ∀ j, j < i → ¬ stopsAt N a rs j) := by
  intro rs
  induction rs with
  | nil =>
    intro a _ _ i
    simp [retryLoop, stopsAt]
  | cons r rs ih =>
    intro a hlo hhi i
    simp only [List.map_cons]
    by_cases hc : r ≠ none ∧ a > N
    · obtain ⟨e, rfl⟩ := Option.ne_none_iff_exists'.mp hc.1
      rw [retryLoop_break t N a e _ hc.2]
      have h0 : stopsAt N a (some e :: rs) 0 := ⟨⟨e, by simp⟩, by simpa using hc.2⟩
      constructor
      · rintro ⟨_, hinv⟩
        have hi : i = 0 := by
          simp [invocations, Ev.isInvoke] at hinv
          omega
        subst hi
        exact ⟨h0, fun j hj => absurd hj (Nat.not_lt_zero j)⟩
      · rintro ⟨_, hmin⟩
        have hi : i = 0 := by
          by_contra hne
          exact hmin 0 (Nat.pos_of_ne_zero hne) h0
        subst hi
        simp [invocations, Ev.isInvoke]
    · have hlen : a + (rs.length : Int) + 1 ≤ maxInt := by
        simpa [add_assoc] using hhi
      have hw : wrapInt (a + 1) = a + 1 :=
        wrapInt_of_inRange (a + 1) (by omega) (by omega)
      rw [retryLoop_continue t N a r _ hc, hw]
      have h0 : ¬ stopsAt N a (r :: rs) 0 := by
        rintro ⟨⟨e, he⟩, hgt⟩
        apply hc
        simp only [List.getElem?_cons_zero, Option.some.injEq] at he
        exact ⟨by simp [he], by simpa using hgt⟩
      have hshift : ∀ j, stopsAt N a (r :: rs) (j + 1) ↔ stopsAt N (a + 1) rs j := by
        intro j
        simp only [stopsAt, List.getElem?_cons_succ]
        push_cast
        constructor
        · rintro ⟨h1, h2⟩; exact ⟨h1, by omega⟩
        · rintro ⟨h1, h2⟩; exact ⟨h1, by omega⟩
      cases i with
      | zero =>
        constructor
        · rintro ⟨hb, hinv⟩
          have := retryLoop_broke_pos t N _ _ hb
          simp only [invocations_cons_invoke, invocations_cons_log] at hinv
          omega
        · rintro ⟨hs, _⟩
          exact absurd hs h0
      | succ i =>
        have ih2 := ih (a + 1) (by omega) (by omega) i
        simp only [invocations_cons_invoke, invocations_cons_log]
        constructor
        · rintro ⟨hb, hinv⟩
          obtain ⟨hs, hmin⟩ := ih2.mp ⟨hb, by omega⟩
          refine ⟨(hshift i).mpr hs, ?_⟩
          intro j hj
          cases j with
          | zero => exact h0
          | succ j => exact fun h => hmin j (by omega) ((hshift j).mp h)
        · rintro ⟨hs, hmin⟩
          obtain ⟨hb, hinv⟩ := ih2.mpr
            ⟨(hshift i).mp hs, fun j hj h => hmin (j + 1) (by omega) ((hshift j).mpr h)⟩
          exact ⟨hb, by omega⟩

/-- On results that are all returns the loop is left by `break` or not at
all; in the second case every result was consumed by an invocation. -/
theorem retryLoop_returns_end (t : Supervised) (N : Int) :
    ∀ (rs : List Err) (a : Int),
      (retryLoop t N a (rs.map .returned)).2 = .broke ∨
      ((retryLoop t N a (rs.map .returned)).2 = .running ∧
        invocations (retryLoop t N a (rs.map .returned)).1 = rs.length) := by
  intro rs
  induction rs with
  | nil => intro a; right; simp [retryLoop, invocations]
  | cons r rs ih =>
    intro a
    simp only [List.map_cons]
    by_cases hc : r ≠ none ∧ a > N
    · obtain ⟨e, rfl⟩ := Option.ne_none_iff_exists'.mp hc.1
      left
      rw [retryLoop_break t N a e _ hc.2]
    · rw [retryLoop_continue t N a r _ hc]
      rcases ih (wrapInt (a + 1)) with h | ⟨h1, h2⟩
      · exact Or.inl h
      · right
        refine ⟨h1, ?_⟩
        simp only [invocations_cons_invoke, invocations_cons_log, List.length_cons]
        omega

/-- The supervisor goroutine whose loop is left by `break`. -/
theorem supervisor_of_broke (t : Supervised) (N : Int) (err : Err) (rs : List OpResult)
    (h : (retryLoop t N 1 rs).2 = .broke) :
    supervisor t N err rs =
      match err with
      | none => ((retryLoop t N 1 rs).1 ++ [.log .fatal nilDereference.msg [], .osExit 1],
          .fatal nilDereference)
      | some e => ((retryLoop t N 1 rs).1 ++ [.send ⟨exitText t ++ e.msg⟩],
          .sent ⟨exitText t ++ e.msg⟩) := by
  unfold supervisor
  simp only [h]
  cases err <;> simp [recovered]

/-! ## The claims on the retry loops -/

/-- C1: for every budget `N ≥ 0` (with `N + 1` a value of the Go type `int`)
and a wrapped operation that returns an error on every invocation, each of
the three supervisor loops is left by `break` after exactly `N + 1`
invocations, and the goroutine does not invoke the operation again. -/
theorem always_failing_invoked_budget_plus_one (t : Supervised) (N : Nat)
    (hN : (N : Int) < maxInt) (es : List GoError) (hlen : N + 1 ≤ es.length) (err : Err) :
    (retryLoop t N 1 (es.map fun e => .returned (some e))).2 = .broke ∧
    invocations (retryLoop t N 1 (es.map fun e => .returned (some e))).1 = N + 1 ∧
    invocations (supervisor t N err (es.map fun e => .returned (some e))).1 = N + 1 ∧
    (supervisor t N err (es.map fun e => .returned (some e))).2 ≠ .running := by
  obtain ⟨h1, h2⟩ :=
    retryLoop_always_failing t N hN N 1 es (le_refl 1) (by omega) hlen
  refine ⟨h1, h2, ?_, ?_⟩
  · rw [supervisor_of_broke t N err _ h1]
    cases err <;> simp only [invocations_append, h2] <;> simp [invocations, Ev.isInvoke]
  · rw [supervisor_of_broke t N err _ h1]
    cases err <;> simp

/-- C1 at the budgets 0 and 2: one invocation and three invocations. -/
theorem always_failing_invoked_budget_plus_one_witness :
    (invocations (retryLoop .healthCheck (0 : Nat) 1
        ([⟨"bind: address already in use"⟩].map fun e => .returned (some e))).1 = 0 + 1) ∧
    ((retryLoop .eventStream (2 : Nat) 1
        ([⟨"a"⟩, ⟨"b"⟩, ⟨"c"⟩, ⟨"d"⟩].map fun e => .returned (some e))).2 = .broke ∧
      invocations (retryLoop .eventStream (2 : Nat) 1
        ([⟨"a"⟩, ⟨"b"⟩, ⟨"c"⟩, ⟨"d"⟩].map fun e => .returned (some e))).1 = 2 + 1) :=
  ⟨(always_failing_invoked_budget_plus_one .healthCheck 0 (by decide)
      [⟨"bind: address already in use"⟩] (by decide) none).2.1,
   (always_failing_invoked_budget_plus_one .eventStream 2 (by decide)
      [⟨"a"⟩, ⟨"b"⟩, ⟨"c"⟩, ⟨"d"⟩] (by decide) none).1,
   (always_failing_invoked_budget_plus_one .eventStream 2 (by decide)
      [⟨"a"⟩, ⟨"b"⟩, ⟨"c"⟩, ⟨"d"⟩] (by decide) none).2.1⟩

/-- C10: for every budget `N` and every sequence of results (nil or error)
shorter than the range of the Go type `int`, the loop is left by `break`
after `k` invocations exactly when `k` is the first invocation number,
counted from 1, whose result is an error and for which `k > N`; otherwise it
is not left at all and every result of the sequence was consumed by an
invocation. A nil result therefore never stops the loop and still counts. -/
theorem retry_loop_stops_at_first_error_past_budget (t : Supervised) (N : Int)
    (rs : List Err) (hlen : (rs.length : Int) < maxInt) (k : Nat) :
    (((retryLoop t N 1 (rs.map .returned)).2 = .broke ∧
        invocations (retryLoop t N 1 (rs.map .returned)).1 = k) ↔
      (1 ≤ k ∧ (∃ e, rs[k - 1]? = some (some e)) ∧ (k : Int) > N ∧
        ∀ j, 1 ≤ j → j < k → ¬ ((∃ e, rs[j - 1]? = some (some e)) ∧ (j : Int) > N))) ∧
    ((retryLoop t N 1 (rs.map .returned)).2 = .broke ∨
      ((retryLoop t N 1 (rs.map .returned)).2 = .running ∧
        invocations (retryLoop t N 1 (rs.map .returned)).1 = rs.length)) := by
  refine ⟨?_, retryLoop_returns_end t N rs 1⟩
  cases k with
  | zero =>
    constructor
    · rintro ⟨hb, hinv⟩
      have := retryLoop_broke_pos t N _ _ hb
      omega
    · rintro ⟨h, _⟩
      omega
  | succ i =>
    have key := retryLoop_broke_iff t N rs 1 minInt_le_one (by omega) i
    rw [key]
    simp only [stopsAt, Nat.add_sub_cancel]
    constructor
    · rintro ⟨⟨he, hgt⟩, hmin⟩
      refine ⟨by omega, he, by push_cast; omega, ?_⟩
      intro j hj1 hjk
      obtain ⟨j, rfl⟩ : ∃ m, j = m + 1 := ⟨j - 1, by omega⟩
      simp only [Nat.add_sub_cancel]
      rintro ⟨he2, hgt2⟩
      exact hmin j (by omega) ⟨he2, by push_cast at hgt2; omega⟩
    · rintro ⟨_, he, hgt, hmin⟩
      refine ⟨⟨he, by push_cast at hgt; omega⟩, ?_⟩
      rintro j hj ⟨he2, hgt2⟩
      exact hmin (j + 1) (by omega) (by omega)
        ⟨by simpa using he2, by push_cast; omega⟩

/-- C10 at budget 2 and results nil, nil, nil, error: the loop is left after
the fourth invocation, on the first failure. -/
theorem retry_loop_stops_at_first_error_past_budget_witness :
    (retryLoop .metadataWatch 2 1
        (([none, none, none, some ⟨"watch closed"⟩] : List Err).map .returned)).2 = .broke ∧
    invocations (retryLoop .metadataWatch 2 1
        (([none, none, none, some ⟨"watch closed"⟩] : List Err).map .returned)).1 = 4 :=
  ((retry_loop_stops_at_first_error_past_budget .metadataWatch 2
      [none, none, none, some ⟨"watch closed"⟩] (by decide) 4).1).mpr
    ⟨by decide, ⟨⟨"watch closed"⟩, rfl⟩, by decide, by
      intro j h1 h2
      interval_cases j <;> simp⟩

/-- The retry loop itself never sends on the `exit` channel. -/
theorem retryLoop_no_send (t : Supervised) (N : Int) :
    ∀ (rs : List OpResult) (a : Int) (e : GoError), Ev.send e ∉ (retryLoop t N a rs).1 := by
  intro rs
  induction rs with
  | nil => intro a e; simp [retryLoop]
  | cons r rs ih =>
    intro a e
    cases r with
    | panicked v => simp [retryLoop]
    | returned err =>
      by_cases hc : err ≠ none ∧ a > N
      · obtain ⟨e2, rfl⟩ := Option.ne_none_iff_exists'.mp hc.1
        rw [retryLoop_break t N a e2 rs hc.2]
        simp
      · rw [retryLoop_continue t N a err rs hc]
        simp [ih]

/-- The deferred function never sends on the `exit` channel. -/
theorem recovered_no_send (v : PanicValue) (e : GoError) : Ev.send e ∉ (recovered v).1 := by
  cases v <;> simp [recovered]

/-- A supervisor goroutine that captured a nil `err` sends nothing and does
not end by a send. -/
theorem supervisor_nil_err_no_send (t : Supervised) (N : Int) (rs : List OpResult) :
    (∀ e, (supervisor t N none rs).2 ≠ .sent e) ∧
    (∀ e, Ev.send e ∉ (supervisor t N none rs).1) := by
  have hns := retryLoop_no_send t N rs 1
  unfold supervisor
  cases hl : (retryLoop t N 1 rs).2 with
  | broke =>
    simp only [hl]
    exact ⟨fun e => by simp [recovered], fun e => by simp [recovered, hns e]⟩
  | running =>
    simp only [hl]
    exact ⟨fun e => by simp, fun e => hns e⟩
  | panicked v =>
    simp only [hl]
    refine ⟨fun e => ?_, fun e => ?_⟩
    · cases v <;> simp [recovered]
    · have h2 := recovered_no_send v e
      simp [hns e, h2]

/-- When `run` reaches `<-exit`, the `err` its closures captured is nil. -/
theorem run_waiting_err (env : Environ) (c : Context) (clientErr : Err) (vars : Captured)
    (h : (run env c clientErr).2 = .waiting vars) : vars.err = none := by
  unfold run at h
  by_cases hc : Getenv env "CATTLE_URL" = "" ∨ Getenv env "CATTLE_ACCESS_KEY" = "" ∨
      Getenv env "CATTLE_SECRET_KEY" = ""
  · simp [hc] at h
  · cases clientErr with
    | some e => simp [hc] at h
    | none =>
      simp only [hc, if_false, RunEnd.waiting.injEq] at h
      rw [← h]

/-- C2, what the code does on retry exhaustion: in every run that reaches
`<-exit` the captured `err` is nil, so a supervisor whose loop is left by
`break` panics in `err.Error()`, the deferred function ends the process with
`log.Fatal`, and nothing is ever sent on the `exit` channel, whatever the
wrapped operation returned. -/
theorem exhausted_supervisor_sends_nothing (env : Environ) (c : Context) (clientErr : Err)
    (vars : Captured) (h : (run env c clientErr).2 = .waiting vars) (t : Supervised)
    (rs : List OpResult) :
    vars.err = none ∧
    (∀ e, (launched vars t rs).2 ≠ .sent e) ∧
    (∀ e, Ev.send e ∉ (launched vars t rs).1) ∧
    ((retryLoop t MaxRetries 1 rs).2 = .broke →
      (launched vars t rs).2 = .fatal nilDereference) := by
  have herr := run_waiting_err env c clientErr vars h
  unfold launched
  rw [herr]
  refine ⟨rfl, (supervisor_nil_err_no_send t MaxRetries rs).1,
    (supervisor_nil_err_no_send t MaxRetries rs).2, ?_⟩
  intro hb
  rw [supervisor_of_broke t MaxRetries none rs hb]

/-- C2 at a concrete run: the event stream fails three times with
"connection refused"; the goroutine ends in `log.Fatal` of the nil
dereference and not in a send of "cattle event subscriber exited: connection refused". -/
theorem exhausted_supervisor_sends_nothing_witness :
    (launched ⟨1, "http://cattle/v1", "key", "secret", 80, none⟩ .eventStream
      [.returned (some ⟨"connection refused"⟩), .returned (some ⟨"connection refused"⟩),
       .returned (some ⟨"connection refused"⟩)]).2 = .fatal nilDereference :=
  (exhausted_supervisor_sends_nothing exampleEnv ⟨"rancher-metadata", 80⟩ none
    ⟨1, "http://cattle/v1", "key", "secret", 80, none⟩ (by decide) .eventStream
    [.returned (some ⟨"connection refused"⟩), .returned (some ⟨"connection refused"⟩),
     .returned (some ⟨"connection refused"⟩)]).2.2.2 (by decide)

/-- C3, what the code does on a panic: a panic whose value is an `error`
ends the process through `log.Fatal`, at every attempt and budget; a panic
whose value is not an `error` matches no case of the type switch, so the
goroutine ends without `log.Fatal`, without `os.Exit` and without a send. -/
theorem panic_with_non_error_value_is_swallowed (t : Supervised) (N : Int) (err : Err) :
    (∀ e : GoError, supervisor t N err [.panicked (.error e)] =
      ([.invoke t (.panicked (.error e)), .log .fatal e.msg [], .osExit 1], .fatal e)) ∧
    (∀ descr : String, supervisor t N err [.panicked (.other descr)] =
      ([.invoke t (.panicked (.other descr))], .silent)) ∧
    supervisor .healthCheck MaxRetries none
        [.returned (some ⟨"listen tcp :80: bind: address already in use"⟩),
         .panicked (.other "http: multiple registrations for /healthcheck")] =
      ([.invoke .healthCheck (.returned (some ⟨"listen tcp :80: bind: address already in use"⟩)),
        .log .debug "make startHealthCheck retry %d" [.int 2],
        .invoke .healthCheck
          (.panicked (.other "http: multiple registrations for /healthcheck"))],
       .silent) := by
  refine ⟨fun e => ?_, fun descr => ?_, ?_⟩
  · simp [supervisor, retryLoop, recovered]
  · simp [supervisor, retryLoop, recovered]
  · decide

/-- C4, what the code does with `CATTLE_SCHEDULER_SLEEPTIME`: the test is
`err != nil`, so a value that parses is discarded and the interval stays 1,
while a value that does not parse puts the number returned next to the error
(0 for a syntax error) into the interval. -/
theorem sleepTime_keeps_default_on_valid_override :
    (∀ s : String, (Atoi s).2 = none → sleepTime s = 1) ∧
    Atoi "5" = (5, none) ∧ sleepTime "5" = 1 ∧
    Atoi "abc" = (0, some .ErrSyntax) ∧ sleepTime "abc" = 0 ∧
    sleepTime "" = 1 ∧
    (∀ (c : Context) (clientErr : Err),
      Ev.newScheduler 1 ∈
        (run (fun key => if key = "CATTLE_SCHEDULER_SLEEPTIME" then some "5" else exampleEnv key)
          c clientErr).1) := by
  refine ⟨fun s h => ?_, by decide, by decide, by decide, by decide, by decide, ?_⟩
  · unfold sleepTime
    simp [h]
  · intro c clientErr
    cases clientErr <;> simp [run, Getenv, exampleEnv] <;> decide

/-! ## The claims on start-up and on the health check -/

/-- C9: when at least one of `CATTLE_URL`, `CATTLE_ACCESS_KEY`,
`CATTLE_SECRET_KEY` is empty or not set, `run` ends in `log.Fatalf` and
`os.Exit(1)` with no API client constructed and no goroutine launched; when
all three are non-empty the credential check does not end the run and the
API client is constructed next. -/
theorem missing_credential_is_fatal_before_start (env : Environ) (c : Context)
    (clientErr : Err) :
    (∀ key, Getenv env key = "" ↔ (env key = none ∨ env key = some "")) ∧
    ((Getenv env "CATTLE_URL" = "" ∨ Getenv env "CATTLE_ACCESS_KEY" = "" ∨
        Getenv env "CATTLE_SECRET_KEY" = "") →
      (run env c clientErr).2 = .fatal ∧
      Ev.osExit 1 ∈ (run env c clientErr).1 ∧
      (∀ timeout url ak sk, Ev.newRancherClient timeout url ak sk ∉ (run env c clientErr).1) ∧
      (∀ g, Ev.go g ∉ (run env c clientErr).1)) ∧
    (¬ (Getenv env "CATTLE_URL" = "" ∨ Getenv env "CATTLE_ACCESS_KEY" = "" ∨
        Getenv env "CATTLE_SECRET_KEY" = "") →
      (run env c clientErr).2 ≠ .fatal ∧
      Ev.osExit 1 ∉ (run env c clientErr).1 ∧
      Ev.newRancherClient (Second * 30) (Getenv env "CATTLE_URL")
        (Getenv env "CATTLE_ACCESS_KEY") (Getenv env "CATTLE_SECRET_KEY") ∈
          (run env c clientErr).1) := by
  refine ⟨fun key => ?_, fun hc => ?_, fun hc => ?_⟩
  · unfold Getenv
    cases env key <;> simp
  · unfold run
    simp only [hc, if_true]
    refine ⟨by simp, by simp, ?_, ?_⟩
    · intro timeout url ak sk
      by_cases hd : Getenv env "RANCHER_DEBUG" = "true" <;> simp [hd]
    · intro g
      by_cases hd : Getenv env "RANCHER_DEBUG" = "true" <;> simp [hd]
  · unfold run
    simp only [hc, if_false]
    cases clientErr with
    | some e =>
      refine ⟨by simp, ?_, by simp⟩
      by_cases hd : Getenv env "RANCHER_DEBUG" = "true" <;> simp [hd]
    | none =>
      refine ⟨by simp, ?_, by simp⟩
      by_cases hd : Getenv env "RANCHER_DEBUG" = "true" <;> simp [hd]

/-- C5: in every probe in which the ping request is issued (the value of
`CATTLE_URL` has at least two bytes, so the slice expression is in range) the
handler writes a response that depends only on whether `md.GetVersion` and
`http.Get` returned a nil error: 200 with body "ok" exactly when both did,
and 404 with a body other than "ok" otherwise. When the ping fails the
response is the same whatever the metadata query returned, and it differs
from the 404 response written when only the metadata query failed. -/
theorem healthcheck_response_policy (mdErr : Err) (cattleURL : String)
    (httpGet : List UInt8 → Err) (hlen : 2 ≤ (goBytes cattleURL).length) :
    ∃ target resp,
      pingURL cattleURL = some target ∧
      (healthcheckHandler mdErr cattleURL httpGet).2 = some resp ∧
      (mdErr = none ∧ httpGet target = none → resp = ⟨200, "ok"⟩) ∧
      (httpGet target ≠ none → resp = ⟨404, "Rancher server is unreachable\n"⟩) ∧
      (mdErr ≠ none ∧ httpGet target = none →
        resp = ⟨404, "Metadata and dns is unreachable\n"⟩) ∧
      ((resp.status = 200 ∧ resp.body = "ok") ↔ (mdErr = none ∧ httpGet target = none)) ∧
      (¬ (mdErr = none ∧ httpGet target = none) → resp.status = 404 ∧ resp.body ≠ "ok") ∧
      (⟨404, "Rancher server is unreachable\n"⟩ : Response) ≠
        ⟨404, "Metadata and dns is unreachable\n"⟩ := by
  have hp : pingURL cattleURL =
      some ((goBytes cattleURL).take ((goBytes cattleURL).length - 2) ++ goBytes "ping") := by
    unfold pingURL
    simp only
    rw [if_neg (by omega)]
  cases hg : httpGet ((goBytes cattleURL).take ((goBytes cattleURL).length - 2) ++ goBytes "ping") with
  | some e =>
    refine ⟨_, ⟨404, "Rancher server is unreachable\n"⟩, hp, ?_, ?_⟩
    · simp [healthcheckHandler, hp, hg, httpError, StatusNotFound]
    · rw [hg]
      refine ⟨by simp, by simp, by simp, by simp, by simp, by decide⟩
  | none =>
    cases mdErr with
    | none =>
      refine ⟨_, ⟨200, "ok"⟩, hp, ?_, ?_⟩
      · simp [healthcheckHandler, hp, hg, StatusOK]
      · rw [hg]
        refine ⟨by simp, by simp, by simp, by simp, by simp, by decide⟩
    | some m =>
      refine ⟨_, ⟨404, "Metadata and dns is unreachable\n"⟩, hp, ?_, ?_⟩
      · simp [healthcheckHandler, hp, hg, httpError, StatusNotFound]
      · rw [hg]
        refine ⟨by simp, by simp, by simp, by simp, by simp, by decide⟩

/-- C5 at a concrete probe: metadata reachable, ping failing. -/
theorem healthcheck_response_policy_witness :
    ∃ target resp,
      pingURL "http://cattle/v1" = some target ∧
      (healthcheckHandler none "http://cattle/v1" (fun _ => some ⟨"dial tcp: timeout"⟩)).2 =
        some resp ∧
      (((fun _ => some ⟨"dial tcp: timeout"⟩ : List UInt8 → Err) target) ≠ none →
        resp = ⟨404, "Rancher server is unreachable\n"⟩) := by
  obtain ⟨target, resp, h1, h2, _, h4, _⟩ :=
    healthcheck_response_policy none "http://cattle/v1" (fun _ => some ⟨"dial tcp: timeout"⟩)
      (by decide)
  exact ⟨target, resp, h1, h2, h4⟩

/-! ## Facts about the reconciliation goroutine -/

/-- Cutting a list behind a known beginning that does not contain the marked element. -/
theorem split_after_known {α : Type} (x : α) :
    ∀ (known l pre post : List α), x ∉ known → known ++ l = pre ++ x :: post →
      ∃ mid, pre = known ++ mid ∧ l = mid ++ x :: post := by
  intro known
  induction known with
  | nil => intro l pre post _ h; exact ⟨pre, rfl, by simpa using h⟩
  | cons k known ih =>
    intro l pre post hx h
    cases pre with
    | nil =>
      simp only [List.cons_append, List.nil_append, List.cons.injEq] at h
      exact absurd h.1.symm (by
        intro hk
        exact hx (by simp [hk]))
    | cons p pre =>
      simp only [List.cons_append, List.cons.injEq] at h
      obtain ⟨mid, h1, h2⟩ := ih l pre post (fun hm => hx (List.mem_cons_of_mem _ hm)) h.2
      exact ⟨mid, by rw [h.1, h1]; rfl, h2⟩

/-- The inner loop after a call that returned an error. -/
theorem syncLoop_error (ok : Bool) (e : GoError) (rs : List SyncOutcome) :
    (syncLoop (.returned ok (some e) :: rs)).1 =
      .updateWithMetadata true (.returned ok (some e)) ::
        ((.log .warn "Error syncing with metadata: %v" [.str e.msg] :: periodHead) ++
          (syncLoop rs).1) := by
  simp [syncLoop, errorText]

/-- The inner loop after a call that returned `(false, nil)`. -/
theorem syncLoop_busy (rs : List SyncOutcome) :
    (syncLoop (.returned false none :: rs)).1 =
      .updateWithMetadata true (.returned false none) ::
        ([.log .info delayText [], .sleep (Second * 5)] ++ (syncLoop rs).1) := by
  simp [syncLoop]

/-- The inner loop after a call that returned `(true, nil)`. -/
theorem syncLoop_done (rs : List SyncOutcome) :
    (syncLoop (.returned true none :: rs)).1 =
      .updateWithMetadata true (.returned true none) :: (periodHead ++ (syncLoop rs).1) := by
  simp [syncLoop]

/-- Every call in the trace of the inner loop is the call that consumed one
of the outcomes; what follows it is the rest of the loop from that call on;
and unless it is the first action, a period head or a back-off sleep stands
right before it. -/
theorem syncLoop_split :
    ∀ (rs : List SyncOutcome) (pre post : List Ev) (f : Bool) (r : SyncOutcome),
      (syncLoop rs).1 = pre ++ .updateWithMetadata f r :: post →
      f = true ∧ ∃ rs1 rest, rs = rs1 ++ r :: rest ∧
        (syncLoop (r :: rest)).1 = .updateWithMetadata true r :: post ∧
        (pre = [] ∨ (∃ p, pre = p ++ periodHead) ∨ (∃ p, pre = p ++ [.sleep (Second * 5)])) := by
  intro rs
  induction rs with
  | nil => intro pre post f r h; simp [syncLoop] at h
  | cons o rs ih =>
    intro pre post f r h
    have hhead : ∃ X, (syncLoop (o :: rs)).1 = .updateWithMetadata true o :: X := by
      cases o with
      | panicked v => exact ⟨(recovered v).1, by simp [syncLoop]⟩
      | returned ok err =>
        cases err with
        | some e => exact ⟨_, syncLoop_error ok e rs⟩
        | none => cases ok
                  · exact ⟨_, syncLoop_busy rs⟩
                  · exact ⟨_, syncLoop_done rs⟩
    obtain ⟨X, hX⟩ := hhead
    cases pre with
    | nil =>
      rw [hX] at h
      simp only [List.nil_append, List.cons.injEq, Ev.updateWithMetadata.injEq] at h
      obtain ⟨⟨hf, hr⟩, hpost⟩ := h
      subst hr
      exact ⟨hf.symm, [], rs, rfl, by rw [hX, hpost], Or.inl rfl⟩
    | cons p pre =>
      have step : ∀ (known : List Ev), Ev.updateWithMetadata f r ∉ known →
          (syncLoop (o :: rs)).1 = .updateWithMetadata true o :: (known ++ (syncLoop rs).1) →
          (known = [] → False) →
          (known = periodHead ∨ (∃ q, known = q ++ periodHead) ∨
            known = [.log .info delayText [], .sleep (Second * 5)]) →
          f = true ∧ ∃ rs1 rest, o :: rs = rs1 ++ r :: rest ∧
            (syncLoop (r :: rest)).1 = .updateWithMetadata true r :: post ∧
            (p :: pre = [] ∨ (∃ q, p :: pre = q ++ periodHead) ∨
              (∃ q, p :: pre = q ++ [.sleep (Second * 5)])) := by
        intro known hx hk _ hshape
        rw [hk] at h
        simp only [List.cons_append, List.cons.injEq] at h
        obtain ⟨hp, hrest⟩ := h
        obtain ⟨mid, hmid, hloop⟩ := split_after_known _ known _ pre post hx hrest
        obtain ⟨hf, rs1, rest, hrs, htail, hbefore⟩ := ih mid post f r hloop
        refine ⟨hf, o :: rs1, rest, by rw [hrs]; rfl, htail, Or.inr ?_⟩
        rcases hbefore with hnil | ⟨q, hq⟩ | ⟨q, hq⟩
        · subst hnil
          rcases hshape with h1 | ⟨q, h1⟩ | h1
          · exact Or.inl ⟨[p], by rw [hmid, h1]; simp⟩
          · exact Or.inl ⟨p :: q, by rw [hmid, h1]; simp⟩
          · exact Or.inr ⟨[p, .log .info delayText []], by rw [hmid, h1]; simp⟩
        · exact Or.inl ⟨p :: (known ++ q), by rw [hmid, hq]; simp⟩
        · exact Or.inr ⟨p :: (known ++ q), by rw [hmid, hq]; simp⟩
      cases o with
      | panicked v =>
        have hmem : Ev.updateWithMetadata f r ∈ (recovered v).1 := by
          have h2 : (syncLoop (.panicked v :: rs)).1 =
              .updateWithMetadata true (.panicked v) :: (recovered v).1 := by simp [syncLoop]
          rw [h2] at h
          simp only [List.cons_append, List.cons.injEq] at h
          rw [h.2]
          simp
        cases v <;> simp [recovered] at hmem
      | returned ok err =>
        cases err with
        | some e =>
          exact step (.log .warn "Error syncing with metadata: %v" [.str e.msg] :: periodHead)
            (by simp [periodHead]) (syncLoop_error ok e rs) (by simp)
            (Or.inr (Or.inl ⟨[_], rfl⟩))
        | none =>
          cases ok with
          | false =>
            exact step [.log .info delayText [], .sleep (Second * 5)] (by simp)
              (syncLoop_busy rs) (by simp) (Or.inr (Or.inr rfl))
          | true =>
            exact step periodHead (by simp [periodHead]) (syncLoop_done rs)
              (by simp [periodHead]) (Or.inl rfl)

/-- The reconciliation goroutine never sends on the `exit` channel. -/
theorem syncLoop_no_send :
    ∀ (rs : List SyncOutcome) (e : GoError),
      Ev.send e ∉ (syncLoop rs).1 ∧ (syncLoop rs).2 ≠ .sent e := by
  intro rs
  induction rs with
  | nil => intro e; simp [syncLoop]
  | cons o rs ih =>
    intro e
    cases o with
    | panicked v => cases v <;> simp [syncLoop, recovered]
    | returned ok err =>
      obtain ⟨h1, h2⟩ := ih e
      cases err with
      | some m => simp [syncLoop, periodHead, h1, h2]
      | none => cases ok <;> simp [syncLoop, periodHead, h1, h2]

/-- Every call in the trace of the goroutine consumed one of the outcomes,
is followed by the rest of the inner loop from that call on, and has a
period head or a back-off sleep right before it. -/
theorem reconcile_split (vars : Captured) (rs : List SyncOutcome) (pre post : List Ev)
    (f : Bool) (r : SyncOutcome)
    (h : (reconcile vars rs).1 = pre ++ .updateWithMetadata f r :: post) :
    f = true ∧ ∃ rs1 rest, rs = rs1 ++ r :: rest ∧
      (syncLoop (r :: rest)).1 = .updateWithMetadata true r :: post ∧
      ((∃ p, pre = p ++ periodHead) ∨ (∃ p, pre = p ++ [.sleep (Second * 5)])) := by
  unfold reconcile at h
  simp only at h
  obtain ⟨mid, hmid, hloop⟩ :=
    split_after_known _ periodHead _ pre post (by simp [periodHead]) h
  obtain ⟨hf, rs1, rest, hrs, htail, hbefore⟩ := syncLoop_split rs mid post f r hloop
  refine ⟨hf, rs1, rest, hrs, htail, ?_⟩
  rcases hbefore with hnil | ⟨q, hq⟩ | ⟨q, hq⟩
  · exact Or.inl ⟨[], by rw [hmid, hnil]; simp⟩
  · exact Or.inl ⟨periodHead ++ q, by rw [hmid, hq]; simp⟩
  · exact Or.inr ⟨periodHead ++ q, by rw [hmid, hq]; simp⟩

/-- A cycle of `k` busy answers followed by `(true, nil)`. -/
theorem syncLoop_busy_cycle (rest : List SyncOutcome) :
    ∀ k : Nat, ∃ cycle,
      (syncLoop (List.replicate k (.returned false none) ++ .returned true none :: rest)).1 =
        cycle ++ periodHead ++ (syncLoop rest).1 ∧
      syncCalls cycle = k + 1 ∧ slept cycle = k * (Second * 5) ∧
      Ev.sleep (Minute * 3) ∉ cycle := by
  intro k
  induction k with
  | zero =>
    refine ⟨[.updateWithMetadata true (.returned true none)], ?_, ?_, ?_, ?_⟩
    · simp [syncLoop_done]
    · simp [syncCalls]
    · simp [slept]
    · simp
  | succ k ih =>
    obtain ⟨cycle, h1, h2, h3, h4⟩ := ih
    refine ⟨.updateWithMetadata true (.returned false none) :: .log .info delayText [] ::
      .sleep (Second * 5) :: cycle, ?_, ?_, ?_, ?_⟩
    · simp only [List.replicate_succ, List.cons_append]
      rw [syncLoop_busy, h1]
      simp
    · simp [syncCalls, h2]
    · simp only [slept, h3]
      ring
    · have hne : Minute * 3 ≠ Second * 5 := by decide
      simp [h4, hne]

/-! ## The claims on the reconciliation goroutine -/

/-- C6: every call of `UpdateWithMetadata(true)` that returns `(false, nil)`
is followed by the `log.Infof` line, a sleep of exactly 5 seconds and then,
with no period sleep in between, the next call of the same inner loop. A
cycle answered `k` times `(false, nil)` and then `(true, nil)` makes exactly
`k + 1` calls and sleeps exactly `5 * k` seconds, never 3 minutes, before the
next period head. -/
theorem reconcile_busy_backoff (vars : Captured) (rs : List SyncOutcome) :
    (∀ pre post, (reconcile vars rs).1 =
        pre ++ .updateWithMetadata true (.returned false none) :: post →
      ∃ rs1 rest, rs = rs1 ++ .returned false none :: rest ∧
        post = .log .info delayText [] :: .sleep (5 * Second) :: (syncLoop rest).1 ∧
        (∀ r rest2, rest = r :: rest2 →
          ∃ tail, (syncLoop rest).1 = .updateWithMetadata true r :: tail)) ∧
    (∀ k : Nat, ∃ cycle,
      (reconcile vars (List.replicate k (.returned false none) ++ .returned true none :: rs)).1 =
        periodHead ++ cycle ++ periodHead ++ (syncLoop rs).1 ∧
      syncCalls cycle = k + 1 ∧ slept cycle = k * (5 * Second) ∧
      Ev.sleep (3 * Minute) ∉ cycle) ∧
    (reconcile vars [.returned false none, .returned false none, .returned true none]).1 =
      [.sleep (3 * Minute), .log .info "Syncing scheduler information with rancher metadata" [],
       .updateWithMetadata true (.returned false none),
       .log .info delayText [], .sleep (5 * Second),
       .updateWithMetadata true (.returned false none),
       .log .info delayText [], .sleep (5 * Second),
       .updateWithMetadata true (.returned true none),
       .sleep (3 * Minute), .log .info "Syncing scheduler information with rancher metadata" []] := by
  refine ⟨?_, ?_, rfl⟩
  · intro pre post h
    obtain ⟨_, rs1, rest, hrs, htail, _⟩ := reconcile_split vars rs pre post true _ h
    refine ⟨rs1, rest, hrs, ?_, ?_⟩
    · rw [syncLoop_busy] at htail
      simp only [List.cons_append, List.nil_append, List.cons.injEq, true_and] at htail
      rw [← htail, Nat.mul_comm]
    · intro r rest2 hr
      subst hr
      cases r with
      | panicked v => exact ⟨(recovered v).1, by simp only [syncLoop]⟩
      | returned ok err =>
        cases err with
        | some e => exact ⟨_, syncLoop_error ok e rest2⟩
        | none =>
          cases ok
          · exact ⟨_, syncLoop_busy rest2⟩
          · exact ⟨_, syncLoop_done rest2⟩
  · intro k
    obtain ⟨cycle, h1, h2, h3, h4⟩ := syncLoop_busy_cycle rs k
    refine ⟨cycle, ?_, h2, by rw [h3, Nat.mul_comm 5], by rwa [Nat.mul_comm 3]⟩
    unfold reconcile
    simp only [h1, List.append_assoc]

/-- C7: every call of `UpdateWithMetadata(true)`, the first one included,
has the 3-minute period head or a 5-second back-off sleep right before it; a
call that returns an error is followed by the warning and the 3-minute
period head, a call that returns `(true, nil)` by the 3-minute period head,
before the loop goes on with the remaining calls; and the goroutine never
sends on the `exit` channel. -/
theorem reconcile_cycle_end (vars : Captured) (rs : List SyncOutcome) :
    (∀ pre post r, (reconcile vars rs).1 = pre ++ .updateWithMetadata true r :: post →
      ((∃ p, pre = p ++ [.sleep (3 * Minute),
          .log .info "Syncing scheduler information with rancher metadata" []]) ∨
        (∃ p, pre = p ++ [.sleep (5 * Second)])) ∧
      (∀ ok e, r = .returned ok (some e) → ∃ rs1 rest, rs = rs1 ++ r :: rest ∧
        post = .log .warn "Error syncing with metadata: %v" [.str e.msg] ::
          .sleep (3 * Minute) ::
          .log .info "Syncing scheduler information with rancher metadata" [] ::
          (syncLoop rest).1) ∧
      (r = .returned true none → ∃ rs1 rest, rs = rs1 ++ r :: rest ∧
        post = .sleep (3 * Minute) ::
          .log .info "Syncing scheduler information with rancher metadata" [] ::
          (syncLoop rest).1)) ∧
    (∀ e, Ev.send e ∉ (reconcile vars rs).1) ∧
    (∀ e, (reconcile vars rs).2 ≠ .sent e) := by
  refine ⟨?_, ?_, ?_⟩
  · intro pre post r h
    obtain ⟨_, rs1, rest, hrs, htail, hbefore⟩ := reconcile_split vars rs pre post true r h
    refine ⟨?_, ?_, ?_⟩
    · rcases hbefore with ⟨p, hp⟩ | ⟨p, hp⟩
      · exact Or.inl ⟨p, by rw [hp, periodHead, Nat.mul_comm 3]⟩
      · exact Or.inr ⟨p, by rw [hp, Nat.mul_comm 5]⟩
    · intro ok e hr
      subst hr
      refine ⟨rs1, rest, hrs, ?_⟩
      rw [syncLoop_error] at htail
      simp only [List.cons_append, List.cons.injEq, true_and] at htail
      rw [← htail, periodHead, Nat.mul_comm 3]
      rfl
    · intro hr
      subst hr
      refine ⟨rs1, rest, hrs, ?_⟩
      rw [syncLoop_done] at htail
      simp only [List.cons.injEq, true_and] at htail
      rw [← htail, periodHead, Nat.mul_comm 3]
      rfl
  · intro e
    unfold reconcile
    simp [periodHead, (syncLoop_no_send rs e).1]
  · intro e
    exact (syncLoop_no_send rs e).2

/-- C8 as stated fails: with `CATTLE_SCHEDULER_SLEEPTIME` the valid integer
5, and even with the scheduler built for the interval 5, the goroutine makes
its next call after a completed cycle once it has slept 3 minutes, which is
less than 5 minutes. -/
theorem reconcile_period_override_counterexample :
    Atoi "5" = (5, none) ∧
    (reconcile ⟨5, "http://cattle/v1", "key", "secret", 80, none⟩
        [.returned true none, .returned true none]).1 =
      [.sleep (3 * Minute), .log .info "Syncing scheduler information with rancher metadata" [],
       .updateWithMetadata true (.returned true none)] ++
      ([.sleep (3 * Minute), .log .info "Syncing scheduler information with rancher metadata" []] ++
       (.updateWithMetadata true (.returned true none) ::
        [.sleep (3 * Minute), .log .info "Syncing scheduler information with rancher metadata" []])) ∧
    slept [.sleep (3 * Minute),
      .log .info "Syncing scheduler information with rancher metadata" []] = 3 * Minute ∧
    3 * Minute < 5 * Minute := by
  decide

/-- C8 as amended: the period of the reconciliation goroutine is 3 minutes
whatever `run` captured, the interval read from `CATTLE_SCHEDULER_SLEEPTIME`
included: the trace does not depend on the captured variables, and a call
that returned `(true, nil)` is followed by a sleep of 3 minutes before the
loop goes on with the remaining calls. -/
theorem reconcile_period_is_three_minutes (vars other : Captured) (rs : List SyncOutcome)
    (pre post : List Ev)
    (h : (reconcile vars rs).1 = pre ++ .updateWithMetadata true (.returned true none) :: post) :
    reconcile other rs = reconcile vars rs ∧
    ∃ rs1 rest, rs = rs1 ++ .returned true none :: rest ∧
      post = .sleep (3 * Minute) ::
        .log .info "Syncing scheduler information with rancher metadata" [] ::
        (syncLoop rest).1 := by
  refine ⟨rfl, ?_⟩
  obtain ⟨_, rs1, rest, hrs, htail, _⟩ := reconcile_split vars rs pre post true _ h
  refine ⟨rs1, rest, hrs, ?_⟩
  rw [syncLoop_done] at htail
  simp only [List.cons.injEq, true_and] at htail
  rw [← htail, periodHead, Nat.mul_comm 3]
  rfl

/-- C8 as amended, at the interval 5 and two completed cycles. -/
theorem reconcile_period_is_three_minutes_witness :
    ∃ rs1 rest, [SyncOutcome.returned true none, .returned true none] =
        rs1 ++ .returned true none :: rest ∧
      ([.sleep (3 * Minute), .log .info "Syncing scheduler information with rancher metadata" [],
        .updateWithMetadata true (.returned true none),
        .sleep (3 * Minute), .log .info "Syncing scheduler information with rancher metadata" []] :
          List Ev) =
        .sleep (3 * Minute) ::
          .log .info "Syncing scheduler information with rancher metadata" [] ::
          (syncLoop rest).1 :=
  (reconcile_period_is_three_minutes ⟨5, "http://cattle/v1", "key", "secret", 80, none⟩
    ⟨1, "http://cattle/v1", "key", "secret", 80, none⟩
    [.returned true none, .returned true none]
    [.sleep (3 * Minute), .log .info "Syncing scheduler information with rancher metadata" []]
    _ (by decide)).2

end Scheduler
